import Mathlib

/-!
Shallow embedding of pycampers/muro (src/muro/muro.py) and verification of
the spec claims about it.

Conventions of the embedding:
- `AudioSource` mirrors the read-only snapshot the code takes from pulsectl
  sink inputs: an integer index (the id used by the fingerprint) and a name.
- External collaborators (the pulse engine, playerctl, the zproc state
  store) are modelled as parameters or, where a claim depends on their
  contract, as definitions written from the words of spec.md (each such
  definition says so in its doc comment).
- Python floats that only carry volume percentages are modelled as rationals.
-/

namespace Muro

structure AudioSource where
  index : Nat
  name : String
  deriving Repr, DecidableEq

/-- Result type of separate_sources: the dict with keys primary_vol and
secondary_vol, each an ordered list of sources. -/
structure SourceGroups where
  primary_vol : List AudioSource
  secondary_vol : List AudioSource
  deriving Repr, DecidableEq

/-- Embedding of muro.py lines 24-42.  The Python code appends name-matching
sources to the local list primary_sources and the rest to secondary_sources,
applies the last-source override when no source matched and more than one
non-matching source exists, and finally returns the dict literal
with primary_vol bound to secondary_sources and secondary_vol bound to
primary_sources, exactly as written on line 42.
The configured name settings.MUSIC_APP is taken as the parameter musicApp. -/
def separate_sources (musicApp : String) (sources : List AudioSource) : SourceGroups :=
  let primary_sources := sources.filter (fun s => s.name == musicApp)
  let secondary_sources := sources.filter (fun s => !(s.name == musicApp))
  if primary_sources.length = 0 ∧ secondary_sources.length > 1 then
    { primary_vol := sources.take (sources.length - 1),
      secondary_vol := sources.drop (sources.length - 1) }
  else
    { primary_vol := secondary_sources, secondary_vol := primary_sources }

example :
    separate_sources "music" [⟨0, "music"⟩, ⟨1, "other"⟩]
      = ⟨[⟨1, "other"⟩], [⟨0, "music"⟩]⟩ := by decide

example :
    separate_sources "music" [⟨0, "a"⟩, ⟨1, "b"⟩, ⟨2, "c"⟩]
      = ⟨[⟨0, "a"⟩, ⟨1, "b"⟩], [⟨2, "c"⟩]⟩ := by decide

example : separate_sources "music" [] = ⟨[], []⟩ := by decide

example : separate_sources "music" [⟨4, "x"⟩] = ⟨[⟨4, "x"⟩], []⟩ := by decide

example : separate_sources "music" [⟨4, "music"⟩] = ⟨[], [⟨4, "music"⟩]⟩ := by decide

/-- Embedding of set_vol (muro.py lines 45-54): the flat volume value written
into the pulse volume object before pulse.volume_set is called, namely
volume / 100 with no clamping. -/
def set_vol_flat (volume : ℚ) : ℚ := volume / 100

/-- Embedding of the body of call_update_volume (muro.py lines 164-169): for
every source in the group stored under the watched key, one set_vol call is
issued with the target volume read from the state under the same key.  Each
call is recorded as the pair of the source and the percent value it carries. -/
def call_update_volume (group : List AudioSource) (target : ℚ) :
    List (AudioSource × ℚ) :=
  group.map (fun s => (s, target))

/-- Embedding of send_command_to_player (muro.py lines 57-63): list_players
(an external playerctl subprocess, lines 18-21) is passed in as the list of
currently active player names, and settings.MUSIC_APP as musicApp.  The
player-targeting arguments are appended to cmd exactly when musicApp occurs
among the active players, and then the playerctl executable name is
prepended. -/
def send_command_to_player (players : List String) (musicApp : String)
    (cmd : List String) : List String :=
  let cmd := if musicApp ∈ players then cmd ++ ["--player", musicApp] else cmd
  "playerctl" :: cmd

/-- Embedding of the state of LastValueIterator (muro.py lines 66-78): the
not-yet-consumed rest of the underlying sequence, and the last value handed
out (None before the first call). -/
structure LastValueIterator (α : Type) where
  rest : List α
  last_val : Option α
  deriving Repr, DecidableEq

/-- The iterator as built by the constructor from a sequence. -/
def LastValueIterator.init (seq : List α) : LastValueIterator α :=
  { rest := seq, last_val := none }

/-- One call of the dunder next method: try to advance the inner iterator and
remember the value; on exhaustion keep the old one; return the remembered
value either way. -/
def LastValueIterator.next : LastValueIterator α → LastValueIterator α × Option α
  | { rest := [], last_val := v } => ({ rest := [], last_val := v }, v)
  | { rest := x :: xs, last_val := _ } =>
      ({ rest := xs, last_val := some x }, some x)

/-- The iterator state after one next call (the returned value always equals
the last_val field of this state). -/
def LastValueIterator.advance (it : LastValueIterator α) : LastValueIterator α :=
  it.next.1

/-- Value returned by the k-th next call (k counted from 1) on the iterator
built from seq. -/
def kthNextValue (seq : List α) (k : Nat) : Option α :=
  ((LastValueIterator.advance)^[k] (LastValueIterator.init seq)).last_val

example : kthNextValue [10, 20, 30] 1 = some 10 := by decide
example : kthNextValue [10, 20, 30] 3 = some 30 := by decide
example : kthNextValue [10, 20, 30] 7 = some 30 := by decide
example : kthNextValue ([] : List Nat) 5 = none := by decide

/-- Embedding of hash_pulse_sources (muro.py lines 96-101): the comma join of
the string forms of the indexes of the primary_vol group, then the separator,
then the same for the secondary_vol group.  No sorting is applied; the list
order of each group is used as stored. -/
def hash_pulse_sources (g : SourceGroups) : String :=
  String.intercalate "," (g.primary_vol.map (fun i => toString i.index))
    ++ "::"
    ++ String.intercalate "," (g.secondary_vol.map (fun i => toString i.index))

/-- The fingerprint as the words of the spec describe it (a deterministic
concatenation of the sorted source ids of each group): same shape as
hash_pulse_sources but with each group of ids sorted ascending first.
Written from the spec only, for comparison against the source definition. -/
def sorted_fingerprint (g : SourceGroups) : String :=
  String.intercalate ","
      (((g.primary_vol.map (fun i => i.index)).insertionSort (· ≤ ·)).map toString)
    ++ "::"
    ++ String.intercalate ","
      (((g.secondary_vol.map (fun i => i.index)).insertionSort (· ≤ ·)).map toString)

example : hash_pulse_sources ⟨[⟨2, "b"⟩, ⟨1, "a"⟩], []⟩ = "2,1::" := by decide
example : sorted_fingerprint ⟨[⟨2, "b"⟩, ⟨1, "a"⟩], []⟩ = "1,2::" := by decide

/-- Transport command dispatched through send_command_to_player: either a
discrete command such as next or previous, or a position command carrying one
element drawn from the precomputed seek sequence (none would mean the
iterator had nothing to give, which cannot happen on a non-empty sequence). -/
inductive PlayerCmd where
  | discrete (cmd : String)
  | position (arg : Option String)
  deriving Repr, DecidableEq

def PlayerCmd.isDiscrete : PlayerCmd → Bool
  | .discrete _ => true
  | .position _ => false

def PlayerCmd.isPosition : PlayerCmd → Bool
  | .discrete _ => false
  | .position _ => true

/-- Embedding of one activation of seek_btn_process (muro.py lines 140-159),
recording the transport commands it dispatches.  The external timing is
summarized by two parameters: releasedBeforeTimeout says whether
get_when_equal(key, False, timeout) returned before the timeout, and
heldTicks is the number of iterations the held-branch while loop makes
before it observes the key as released.  In the short branch exactly the one
discrete command is sent; in the held branch each tick sends one position
command whose argument is the next value of the LastValueIterator over the
precomputed cmd_list. -/
def seek_btn_process (cmd : String) (cmdList : List String)
    (releasedBeforeTimeout : Bool) (heldTicks : Nat) : List PlayerCmd :=
  if releasedBeforeTimeout then
    [PlayerCmd.discrete cmd]
  else
    (List.range heldTicks).map
      (fun t => PlayerCmd.position (kthNextValue cmdList (t + 1)))

example :
    seek_btn_process "next" ["2.00+", "3.00+"] false 4
      = [PlayerCmd.position (some "2.00+"), PlayerCmd.position (some "3.00+"),
         PlayerCmd.position (some "3.00+"), PlayerCmd.position (some "3.00+")] := by
  decide

/-- Modelled from the spec: the state store notification semantics behind
ctx.call_when_change, used by play_pause (muro.py lines 174-177).  The store
implementation (the zproc library) is not part of this repository; spec.md
section 4.1 specifies wait_until_changed as blocking until a write to the key
differs from the value observed at call time and section 4.5 as firing the
play-pause handler once per wake.  Given the value v held at the key when
the watcher starts and the sequence of values written to the key, this
returns how many play-pause toggle commands the watcher issues: a write equal
to the currently observed value does not wake the watcher, a differing write
wakes it exactly once and the new value becomes the observed one. -/
def play_pause_toggles (v : Bool) : List Bool → Nat
  | [] => 0
  | w :: ws => if w = v then play_pause_toggles v ws else play_pause_toggles w ws + 1

/-- Number of value-changing writes in a write sequence applied to a key
holding v: the count of adjacent inequalities in the value history. -/
def countValueChanges (v : Bool) (ws : List Bool) : Nat :=
  (List.zipWith (fun a b => decide (a ≠ b)) (v :: ws) ws).count true

example : play_pause_toggles false [true, true] = 1 := by decide
example : countValueChanges false [true, true] = 1 := by decide
example : play_pause_toggles false [true, false, true] = 3 := by decide

/-! Helper lemmas shared by several claim theorems. -/

/-- Rewriting the per-source string map of the fingerprint through the index
projection. -/
theorem map_toString_index (l : List AudioSource) :
    l.map (fun i => toString i.index) = (l.map AudioSource.index).map toString :=
  (List.map_map toString AudioSource.index l).symm

/-- The two groups returned by separate_sources always concatenate to a
permutation of the input list, in both the name-partition branch and the
last-source override branch. -/
theorem separate_sources_perm (musicApp : String) (sources : List AudioSource) :
    ((separate_sources musicApp sources).primary_vol ++
      (separate_sources musicApp sources).secondary_vol).Perm sources := by
  by_cases hcond : (sources.filter (fun s => s.name == musicApp)).length = 0 ∧
      (sources.filter (fun s => !(s.name == musicApp))).length > 1
  · simp only [separate_sources, if_pos hcond]
    simp
  · simp only [separate_sources, if_neg hcond]
    simpa [Bool.not_not] using
      List.filter_append_perm (fun s => !(s.name == musicApp)) sources

/-! Claim theorems. -/

/-- Claim C1, evaluation at the failing input: with the configured music-app name
music, the source named music is placed in the secondary_vol group and the
non-matching source in the primary_vol group, so the matching source is not
a member of the primary group as the claim requires. -/
theorem separate_sources_match_goes_to_secondary :
    separate_sources "music" [⟨0, "music"⟩, ⟨1, "other"⟩]
        = ⟨[⟨1, "other"⟩], [⟨0, "music"⟩]⟩ ∧
      (⟨0, "music"⟩ : AudioSource) ∉
        (separate_sources "music" [⟨0, "music"⟩, ⟨1, "other"⟩]).primary_vol := by
  decide

/-- Claim C3, evaluation at the failing input: with no source matching the music-app
name and three sources, the last source becomes the sole member of the
secondary_vol group, not of the primary group as the claim requires. -/
theorem separate_sources_last_goes_to_secondary :
    separate_sources "music" [⟨0, "a"⟩, ⟨1, "b"⟩, ⟨2, "c"⟩]
        = ⟨[⟨0, "a"⟩, ⟨1, "b"⟩], [⟨2, "c"⟩]⟩ ∧
      (separate_sources "music" [⟨0, "a"⟩, ⟨1, "b"⟩, ⟨2, "c"⟩]).primary_vol
        ≠ [⟨2, "c"⟩] := by
  decide

/-- Claim C8: on the empty input separate_sources returns two empty groups and
raises nothing (it is a total function), and on any single-element input the
element lands in exactly one of the two groups with the other group empty,
so no input of length at most one is ever split across both groups. -/
theorem separate_sources_small (musicApp : String) :
    separate_sources musicApp [] = ⟨[], []⟩ ∧
      ∀ s : AudioSource,
        separate_sources musicApp [s] = ⟨[s], []⟩ ∨
          separate_sources musicApp [s] = ⟨[], [s]⟩ := by
  refine ⟨by simp [separate_sources], fun s => ?_⟩
  by_cases h : s.name = musicApp
  · right
    simp [separate_sources, h]
  · left
    simp [separate_sources, h]

/-- Claim C10: send_command_to_player appends the player-targeting pair of
arguments to the command exactly when the configured music app occurs in the
list of active players, and otherwise dispatches the command with no player
argument; either way the playerctl executable name is prepended. -/
theorem send_command_to_player_targeting (players : List String)
    (musicApp : String) (cmd : List String) :
    (musicApp ∈ players →
        send_command_to_player players musicApp cmd
          = "playerctl" :: (cmd ++ ["--player", musicApp])) ∧
      (musicApp ∉ players →
        send_command_to_player players musicApp cmd = "playerctl" :: cmd) := by
  constructor <;> intro h <;> simp [send_command_to_player, h]

/-- Witness for C10 at concrete inputs: one active-player list containing the
music app and one not containing it. -/
theorem send_command_to_player_targeting_witness :
    send_command_to_player ["spotify"] "spotify" ["next"]
        = ["playerctl", "next", "--player", "spotify"] ∧
      send_command_to_player ["vlc"] "spotify" ["next"]
        = ["playerctl", "next"] :=
  ⟨(send_command_to_player_targeting ["spotify"] "spotify" ["next"]).1
      (by decide),
    (send_command_to_player_targeting ["vlc"] "spotify" ["next"]).2
      (by decide)⟩

/-- Claim C2, counterexample: the volume value read from the state is handed to the
audio engine unchanged, so with a stored target of 150 the synchronizer
issues a set-volume call carrying 150, which is outside the interval
from 0 to 100. -/
theorem call_update_volume_unclamped :
    ((⟨0, "chrome"⟩ : AudioSource), (150 : ℚ))
        ∈ call_update_volume [⟨0, "chrome"⟩] 150 ∧
      ¬ ((150 : ℚ) ≤ 100) := by
  refine ⟨?_, by norm_num⟩
  simp [call_update_volume]

/-- Claim C2, amended: every set-volume call issued by the synchronizer carries
exactly the target value read from the state (scaled to a flat fraction by
division by 100 inside set_vol); in particular the call value lies in the
interval from 0 to 100 whenever the stored target does. -/
theorem call_update_volume_range (group : List AudioSource) (target : ℚ)
    (h0 : 0 ≤ target) (h1 : target ≤ 100) :
    ∀ c ∈ call_update_volume group target,
      c.2 = target ∧ 0 ≤ c.2 ∧ c.2 ≤ 100 ∧ set_vol_flat c.2 = c.2 / 100 := by
  intro c hc
  simp only [call_update_volume, List.mem_map] at hc
  obtain ⟨s, _, rfl⟩ := hc
  exact ⟨rfl, h0, h1, rfl⟩

/-- Witness for C2 amended at a concrete group and an in-range target. -/
theorem call_update_volume_range_witness :
    ((⟨0, "x"⟩ : AudioSource), (50 : ℚ)).2 = 50 ∧
      (0 : ℚ) ≤ ((⟨0, "x"⟩ : AudioSource), (50 : ℚ)).2 ∧
      ((⟨0, "x"⟩ : AudioSource), (50 : ℚ)).2 ≤ 100 ∧
      set_vol_flat ((⟨0, "x"⟩ : AudioSource), (50 : ℚ)).2
        = ((⟨0, "x"⟩ : AudioSource), (50 : ℚ)).2 / 100 :=
  call_update_volume_range [⟨0, "x"⟩] 50 (by norm_num) (by norm_num)
    (⟨0, "x"⟩, 50) (by simp [call_update_volume])

/-- Claim C9: when the input sources carry pairwise-distinct indexes, the two
groups returned by separate_sources form a partition of the input: their
concatenation is a permutation of the input list, and no index occurs in
both groups at once. -/
theorem separate_sources_partition (musicApp : String)
    (sources : List AudioSource)
    (h : (sources.map AudioSource.index).Nodup) :
    ((separate_sources musicApp sources).primary_vol ++
        (separate_sources musicApp sources).secondary_vol).Perm sources ∧
      ∀ s ∈ (separate_sources musicApp sources).primary_vol,
        ∀ t ∈ (separate_sources musicApp sources).secondary_vol,
          s.index ≠ t.index := by
  have hperm := separate_sources_perm musicApp sources
  refine ⟨hperm, ?_⟩
  have hnd : (((separate_sources musicApp sources).primary_vol ++
      (separate_sources musicApp sources).secondary_vol).map
        AudioSource.index).Nodup :=
    ((hperm.map AudioSource.index).nodup_iff).2 h
  rw [List.map_append, List.nodup_append] at hnd
  intro s hs t ht heq
  exact hnd.2.2 (List.mem_map_of_mem AudioSource.index hs)
    (heq ▸ List.mem_map_of_mem AudioSource.index ht)

/-- Witness for C9 at a concrete two-element input with distinct indexes. -/
theorem separate_sources_partition_witness :
    ((separate_sources "music" [⟨0, "music"⟩, ⟨1, "other"⟩]).primary_vol ++
        (separate_sources "music" [⟨0, "music"⟩, ⟨1, "other"⟩]).secondary_vol).Perm
          [⟨0, "music"⟩, ⟨1, "other"⟩] ∧
      ∀ s ∈ (separate_sources "music" [⟨0, "music"⟩, ⟨1, "other"⟩]).primary_vol,
        ∀ t ∈ (separate_sources "music" [⟨0, "music"⟩, ⟨1, "other"⟩]).secondary_vol,
          s.index ≠ t.index :=
  separate_sources_partition "music" [⟨0, "music"⟩, ⟨1, "other"⟩] (by decide)

/-- Claim C4, counterexample: on the group holding indexes 2 then 1, the code
fingerprint keeps the stored order while the sorted fingerprint demanded by
the claim sorts them, and the two strings differ. -/
theorem hash_pulse_sources_not_sorted :
    hash_pulse_sources ⟨[⟨2, "b"⟩, ⟨1, "a"⟩], []⟩ = "2,1::" ∧
      sorted_fingerprint ⟨[⟨2, "b"⟩, ⟨1, "a"⟩], []⟩ = "1,2::" ∧
      hash_pulse_sources ⟨[⟨2, "b"⟩, ⟨1, "a"⟩], []⟩
        ≠ sorted_fingerprint ⟨[⟨2, "b"⟩, ⟨1, "a"⟩], []⟩ := by
  decide

/-- Claim C4, amended: the fingerprint is a deterministic function of the two
per-group id sequences taken in stored order: any two groups whose
primary_vol indexes agree elementwise and whose secondary_vol indexes agree
elementwise receive the same fingerprint string, so repeated computation on
the same input always yields the same string. -/
theorem hash_pulse_sources_deterministic (g1 g2 : SourceGroups)
    (hp : g1.primary_vol.map AudioSource.index
      = g2.primary_vol.map AudioSource.index)
    (hs : g1.secondary_vol.map AudioSource.index
      = g2.secondary_vol.map AudioSource.index) :
    hash_pulse_sources g1 = hash_pulse_sources g2 := by
  unfold hash_pulse_sources
  simp only [map_toString_index]
  rw [hp, hs]

/-- Witness for C4 amended: two groups with the same indexes but different
names receive the same fingerprint. -/
theorem hash_pulse_sources_deterministic_witness :
    hash_pulse_sources ⟨[⟨1, "a"⟩], [⟨2, "b"⟩]⟩
      = hash_pulse_sources ⟨[⟨1, "x"⟩], [⟨2, "y"⟩]⟩ :=
  hash_pulse_sources_deterministic ⟨[⟨1, "a"⟩], [⟨2, "b"⟩]⟩
    ⟨[⟨1, "x"⟩], [⟨2, "y"⟩]⟩ (by decide) (by decide)

/-- Claim C5, counterexample: starting from pause holding false, the write
sequence true, true has length two but wakes the value-filtered watcher only
once, so the second write (which stores the same value as the first) does
not produce a toggle command. -/
theorem play_pause_toggles_counterexample :
    play_pause_toggles false [true, true] = 1 ∧
      ([true, true] : List Bool).length = 2 ∧ (1 : Nat) ≠ 2 := by
  decide

/-- Claim C5, amended: the watcher issues exactly one toggle command per
value-changing write: the number of toggles equals the number of adjacent
value changes in the write history, so a write that stores the value already
present produces no toggle. -/
theorem play_pause_toggles_eq_countValueChanges (v : Bool) (ws : List Bool) :
    play_pause_toggles v ws = countValueChanges v ws := by
  induction ws generalizing v with
  | nil => rfl
  | cons w ws ih =>
    have hz : countValueChanges v (w :: ws)
        = countValueChanges w ws + if decide (v ≠ w) = true then 1 else 0 := by
      simp [countValueChanges, List.count_cons]
    rw [hz]
    by_cases h : w = v
    · subst h
      simp [play_pause_toggles, ih]
    · have hv : v ≠ w := fun hvw => h hvw.symm
      simp [play_pause_toggles, h, hv, ih]

/-- Advancing an iterator whose underlying sequence is exhausted changes
nothing: the remembered last value is kept. -/
theorem advance_nil_fixed (k : Nat) (v : Option α) :
    (LastValueIterator.advance)^[k] ⟨[], v⟩ = (⟨[], v⟩ : LastValueIterator α) := by
  induction k with
  | zero => rfl
  | succ k ih =>
    rw [Function.iterate_succ_apply]
    exact ih

/-- Advancing an iterator with a non-empty rest consumes its head and
remembers it. -/
theorem advance_cons (x : α) (xs : List α) (v : Option α) :
    (⟨x :: xs, v⟩ : LastValueIterator α).advance = ⟨xs, some x⟩ :=
  rfl

/-- Core induction for the last-value iterator: after k advances (k at least
one) of an iterator whose rest is the non-empty list l, the remembered value
is the element of l at position min k (length l) - 1, whatever value was
remembered before. -/
theorem advance_iterate_last_val (k : Nat) :
    ∀ (l : List α) (v : Option α), 1 ≤ k → l ≠ [] →
      ((LastValueIterator.advance)^[k] ⟨l, v⟩).last_val
        = l.get? (min k l.length - 1) := by
  induction k with
  | zero =>
    intro l v hk _
    exact absurd hk (by omega)
  | succ k ih =>
    intro l v hk hl
    match l with
    | [] => exact absurd rfl hl
    | a :: l2 =>
      rw [Function.iterate_succ_apply, advance_cons]
      rcases Nat.eq_zero_or_pos k with h0 | hk1
      · subst h0
        have hmin : min 1 (l2.length + 1) - 1 = 0 := by omega
        simp [List.length_cons, hmin]
      · match l2 with
        | [] =>
          rw [advance_nil_fixed]
          have hmin : min (k + 1) ([a] : List α).length - 1 = 0 := by
            simp
          rw [hmin]
          rfl
        | b :: l3 =>
          rw [ih (b :: l3) (some a) hk1 (by simp)]
          have hmin : min (k + 1) ((a :: b :: l3) : List α).length - 1
              = (min k ((b :: l3) : List α).length - 1) + 1 := by
            simp only [List.length_cons]
            omega
          rw [hmin, List.get?_cons_succ]

/-- Claim C6: on a non-empty sequence of length n, the k-th next call (k at
least one) on the last-value iterator returns precisely the element at
position min k n - 1, and the result is always some value: after exhaustion
the final element keeps being returned and nothing is ever raised. -/
theorem kthNextValue_spec (seq : List α) (k : Nat) (hs : seq ≠ [])
    (hk : 1 ≤ k) :
    kthNextValue seq k = seq.get? (min k seq.length - 1) ∧
      (kthNextValue seq k).isSome = true := by
  have h := advance_iterate_last_val k seq none hk hs
  have hlen : 0 < seq.length := List.length_pos.mpr hs
  have hidx : min k seq.length - 1 < seq.length := by omega
  constructor
  · exact h
  · have h2 : kthNextValue seq k = seq.get? (min k seq.length - 1) := h
    rw [h2, List.get?_eq_get hidx]
    rfl

/-- Witness for C6: the fifth next call on a three-element sequence returns
the element at position min 5 3 - 1, that is the final element. -/
theorem kthNextValue_spec_witness :
    kthNextValue [10, 20, 30] 5
        = ([10, 20, 30] : List Nat).get? (min 5 ([10, 20, 30] : List Nat).length - 1) ∧
      (kthNextValue [10, 20, 30] 5).isSome = true :=
  kthNextValue_spec [10, 20, 30] 5 (by decide) (by decide)

/-- Claim C7: whenever the press-to-release wait returns before the timeout,
the activation of seek_btn_process dispatches exactly the one discrete
transport command for its key and no position command at all, after which
the activation ends and the decorator re-arms it for the next press. -/
theorem seek_btn_process_short_tap (cmd : String) (cmdList : List String)
    (rbt : Bool) (heldTicks : Nat) (h : rbt = true) :
    seek_btn_process cmd cmdList rbt heldTicks = [PlayerCmd.discrete cmd] ∧
      (seek_btn_process cmd cmdList rbt heldTicks).countP PlayerCmd.isDiscrete = 1 ∧
      (seek_btn_process cmd cmdList rbt heldTicks).countP PlayerCmd.isPosition = 0 := by
  subst h
  refine ⟨rfl, ?_, ?_⟩ <;>
    simp [seek_btn_process, List.countP_cons, PlayerCmd.isDiscrete,
      PlayerCmd.isPosition]

/-- Witness for C7 at a concrete short tap of the next button. -/
theorem seek_btn_process_short_tap_witness :
    seek_btn_process "next" ["2.00+"] true 0 = [PlayerCmd.discrete "next"] ∧
      (seek_btn_process "next" ["2.00+"] true 0).countP PlayerCmd.isDiscrete = 1 ∧
      (seek_btn_process "next" ["2.00+"] true 0).countP PlayerCmd.isPosition = 0 :=
  seek_btn_process_short_tap "next" ["2.00+"] true 0 rfl

end Muro
